import Mathlib

/-!
Verification of the RingBuffer repository (Disen-Shaw/RingBuffer).

The repository contains three restatements of a circular FIFO:
* `src/gfifo.h` — C macros over `struct gfifo`, power-of-two size with
  bitmask index arithmetic (`& mask`), all cursor arithmetic in
  `unsigned int` (32-bit, wrapping);
* `src/unnamed/part_000` (generic_fifo.h) — C macros over
  `struct generic_fifo`, modulo index arithmetic (`% size`), cursors in
  `uint32_t`;
* `src/CircularFifo.cs` — a C# generic class with `uint` cursors,
  `_size = capacity + 1` slots.

The shallow embedding below translates each operation from the source.
Storage (`void *`/`T[]`) is modelled as `List α`; a `memcpy` of one
element is a `List.set` / `List.getD`; 32-bit unsigned wrapping is an
explicit `% U32`.  Fallible operations return their success flag
together with the (possibly unchanged) state; values copied out are
`Option α`.
-/

/-- `2^32`, the modulus of C `unsigned int` / `uint32_t` / C# `uint`
arithmetic. -/
def U32 : Nat := 4294967296

/-- `struct gfifo` (src/gfifo.h lines 15-22).  The C fields `in` and
`out` are Lean keywords, hence `inIdx` / `outIdx`. -/
structure gfifo (α : Type) where
  data : List α
  inIdx : Nat
  outIdx : Nat
  size : Nat
  mask : Nat
deriving DecidableEq

/-- `gfifo_init` (src/gfifo.h lines 31-39): binds the buffer, zeroes
both cursors, records `size` and `mask = size - 1` (unsigned, so
capacity 0 yields mask `2^32 - 1`).  No validation of any kind is
performed. -/
def gfifo_init (buf : List α) (size : Nat) : gfifo α :=
  { data := buf, inIdx := 0, outIdx := 0, size := size,
    mask := (size + U32 - 1) % U32 }

/-- `gfifo_empty` (src/gfifo.h lines 46-50). -/
def gfifo_empty (f : gfifo α) : Bool :=
  f.inIdx == f.outIdx

/-- `gfifo_full` (src/gfifo.h lines 57-61): `((in + 1) & mask) == out`. -/
def gfifo_full (f : gfifo α) : Bool :=
  ((f.inIdx + 1) % U32 &&& f.mask) == f.outIdx

/-- `gfifo_vaild_count` (src/gfifo.h lines 68-72, typo `vaild` is the
source's): `(in - out) & mask` with wrapping unsigned subtraction. -/
def gfifo_vaild_count (f : gfifo α) : Nat :=
  ((f.inIdx + U32 - f.outIdx) % U32) &&& f.mask

/-- `gfifo_insert` (src/gfifo.h lines 85-97): fails iff the full test
`((in + 1) & mask) == out` holds; otherwise writes the element at slot
`in` and advances `in = (in + 1) & mask`. -/
def gfifo_insert (f : gfifo α) (v : α) : Bool × gfifo α :=
  if ((f.inIdx + 1) % U32 &&& f.mask) == f.outIdx then (false, f)
  else (true, { f with data := f.data.set f.inIdx v,
                       inIdx := (f.inIdx + 1) % U32 &&& f.mask })

/-- `gfifo_remove` (src/gfifo.h lines 110-122): fails iff empty;
otherwise copies the slot at `out` and advances `out = (out + 1) & mask`. -/
def gfifo_remove [Inhabited α] (f : gfifo α) : Option α × gfifo α :=
  if f.inIdx == f.outIdx then (none, f)
  else (some (f.data.getD f.outIdx default),
        { f with outIdx := (f.outIdx + 1) % U32 &&& f.mask })

/-- `gfifo_throw` (src/gfifo.h lines 159-169): discard without copy. -/
def gfifo_throw (f : gfifo α) : Bool × gfifo α :=
  if f.inIdx == f.outIdx then (false, f)
  else (true, { f with outIdx := (f.outIdx + 1) % U32 &&& f.mask })

/-- Modelled from the spec: the source macro `gfifo_peek`
(src/gfifo.h lines 135-146) cannot be translated as written because its
copy size is the undefined identifier `sizoef (_type)` — any expansion
of the macro fails to compile.  Per the spec's corrected reading
("copy exactly one element's worth of bytes") it behaves as
`gfifo_remove` except that it does not advance `out`. -/
def gfifo_peek_fixed [Inhabited α] (f : gfifo α) : Option α × gfifo α :=
  if f.inIdx == f.outIdx then (none, f)
  else (some (f.data.getD f.outIdx default), f)

/-- `memcpy` of a run of elements into `dst` starting at slot `pos`
(writes past the end of `dst` are dropped, as `List.set` is). -/
def copyInto : List α → Nat → List α → List α
  | dst, _, [] => dst
  | dst, pos, x :: xs => copyInto (dst.set pos x) (pos + 1) xs

/-- `gfifo_insert_array` (src/gfifo.h lines 182-206), translated
literally.  Success condition `(count + len) < size` (unsigned sum).
Contiguous case `in + len < size`: one copy of `len` elements at `in`.
Split case: `size - in` elements from the start of `arr` go to
`data + in`, then `len - (size - in)` elements taken from offset
`len - (size - in)` of `arr` (the source's own offset expression) go to
`data + 0`; finally `in = (in + len) & mask`. -/
def gfifo_insert_array (f : gfifo α) (arr : List α) (len : Nat) :
    Bool × gfifo α :=
  if (gfifo_vaild_count f + len) % U32 < f.size then
    let d :=
      if (f.inIdx + len) % U32 < f.size then
        copyInto f.data f.inIdx (arr.take len)
      else
        let r := (f.size + U32 - f.inIdx) % U32
        copyInto (copyInto f.data f.inIdx (arr.take r)) 0
          ((arr.drop (len - r)).take (len - r))
    (true, { f with data := d, inIdx := (f.inIdx + len) % U32 &&& f.mask })
  else (false, f)

/-- `struct generic_fifo` (src/unnamed/part_000 lines 23-29). -/
structure generic_fifo (α : Type) where
  buffer : List α
  in_idx : Nat
  out_idx : Nat
  size : Nat
  user_buffer_flag : Nat
deriving DecidableEq

/-- `generic_fifo_init` (src/unnamed/part_000 lines 49-57): binds the
buffer, records size and flag, zeroes both cursors.  No validation. -/
def generic_fifo_init (buf : List α) (flag : Nat) (size : Nat) :
    generic_fifo α :=
  { buffer := buf, in_idx := 0, out_idx := 0, size := size,
    user_buffer_flag := flag }

/-- `generic_fifo_full` (src/unnamed/part_000 lines 87-91):
`((in_idx + 1) % size) == out_idx`. -/
def generic_fifo_full (f : generic_fifo α) : Bool :=
  (f.in_idx + 1) % U32 % f.size == f.out_idx

/-- `generic_fifo_empty` (src/unnamed/part_000 lines 102-106). -/
def generic_fifo_empty (f : generic_fifo α) : Bool :=
  f.in_idx == f.out_idx

/-- `generic_fifo_valid_count` (src/unnamed/part_000 lines 115-119):
`(in_idx - out_idx + size) % size` with `uint32_t` intermediates. -/
def generic_fifo_valid_count (f : generic_fifo α) : Nat :=
  ((f.in_idx + U32 - f.out_idx) % U32 + f.size) % U32 % f.size

/-- `generic_fifo_unused_count` (src/unnamed/part_000 lines 128-133):
`size - valid_count` with wrapping unsigned subtraction. -/
def generic_fifo_unused_count (f : generic_fifo α) : Nat :=
  (f.size + U32 - generic_fifo_valid_count f) % U32

/-- `generic_fifo_insert` (src/unnamed/part_000 lines 146-155). -/
def generic_fifo_insert (f : generic_fifo α) (v : α) :
    Bool × generic_fifo α :=
  if generic_fifo_full f then (false, f)
  else (true, { f with buffer := f.buffer.set f.in_idx v,
                       in_idx := (f.in_idx + 1) % U32 % f.size })

/-- `generic_fifo_remove` (src/unnamed/part_000 lines 168-178). -/
def generic_fifo_remove [Inhabited α] (f : generic_fifo α) :
    Option α × generic_fifo α :=
  if generic_fifo_empty f then (none, f)
  else (some (f.buffer.getD f.out_idx default),
        { f with out_idx := (f.out_idx + 1) % U32 % f.size })

/-- `generic_fifo_select_index` (src/unnamed/part_000 lines 248-258):
succeeds iff `valid_count > index`, and then copies from physical slot
`out_idx + index` — the source applies NO `% size` here (contrast
`generic_fifo_change`, line 198, which wraps).  An out-of-range physical
read is modelled by `List.getD`'s default. -/
def generic_fifo_select_index [Inhabited α] (f : generic_fifo α)
    (idx : Nat) : Option α :=
  if idx < generic_fifo_valid_count f then
    some (f.buffer.getD (f.out_idx + idx) default)
  else none

/-- `CircularFifo<T>` (src/CircularFifo.cs lines 6-33): `_buffer` of
`_size = capacity + 1` slots, `uint` cursors. -/
structure CircularFifo (α : Type) where
  buffer : List α
  inIdx : Nat
  outIdx : Nat
  size : Nat
  capacity : Nat
deriving DecidableEq

/-- The `CircularFifo(uint capacity)` constructor
(src/CircularFifo.cs lines 57-64): allocates `capacity + 1` slots
(fresh C# array elements, hence `default`), records `_capacity` and
`_size = capacity + 1`, zeroes both cursors.  No validation. -/
def CircularFifo.ofCapacity (α : Type) [Inhabited α] (capacity : Nat) :
    CircularFifo α :=
  { buffer := List.replicate (capacity + 1) default, inIdx := 0,
    outIdx := 0, size := capacity + 1, capacity := capacity }

/-- `Count()` (src/CircularFifo.cs lines 70-73):
`(_inIdx - _outIdx + _size) % _size` in `uint` arithmetic. -/
def CircularFifo.Count (q : CircularFifo α) : Nat :=
  ((q.inIdx + U32 - q.outIdx) % U32 + q.size) % U32 % q.size

/-- `UnusedCount()` (src/CircularFifo.cs lines 79-82):
`_capacity - Count()` in `uint` arithmetic. -/
def CircularFifo.UnusedCount (q : CircularFifo α) : Nat :=
  (q.capacity + U32 - q.Count) % U32

/-- `IsFull()` (src/CircularFifo.cs lines 87-90). -/
def CircularFifo.IsFull (q : CircularFifo α) : Bool :=
  (q.inIdx + 1) % U32 % q.size == q.outIdx

/-- `IsEmpty()` (src/CircularFifo.cs lines 95-98). -/
def CircularFifo.IsEmpty (q : CircularFifo α) : Bool :=
  q.inIdx == q.outIdx

/-- `Insert(T item)` (src/CircularFifo.cs lines 105-114). -/
def CircularFifo.Insert (q : CircularFifo α) (item : α) :
    Bool × CircularFifo α :=
  if q.IsFull then (false, q)
  else (true, { q with buffer := q.buffer.set q.inIdx item,
                       inIdx := (q.inIdx + 1) % U32 % q.size })

/-- `Remove(ref T item)` (src/CircularFifo.cs lines 121-130). -/
def CircularFifo.Remove [Inhabited α] (q : CircularFifo α) :
    Option α × CircularFifo α :=
  if q.IsEmpty then (none, q)
  else (some (q.buffer.getD q.outIdx default),
        { q with outIdx := (q.outIdx + 1) % U32 % q.size })

/-- `GetValue(ref T item, int index)` (src/CircularFifo.cs lines
169-178), translated literally: the guard is
`index < 0 && index > Count()` — the source's `&&` (not `||`), so the
failure branch is unreachable; on the other branch the element at
`(_outIdx + index) % _size` is returned (C# `long` arithmetic, truncated
remainder; a negative computed index would throw, modelled by `getD`'s
default, and is never reached for `index ≥ 0`). -/
def CircularFifo.GetValue [Inhabited α] (q : CircularFifo α)
    (index : Int) : Option α :=
  if index < 0 ∧ (q.Count : Int) < index then none
  else some (q.buffer.getD (((q.outIdx : Int) + index).tmod
    (q.size : Int)).toNat default)

/-- `GetAll()` (src/CircularFifo.cs lines 184-192): reads `Count()`
elements at `(_outIdx + i) % _size` without mutating anything. -/
def CircularFifo.GetAll [Inhabited α] (q : CircularFifo α) : List α :=
  (List.range q.Count).map
    (fun i => q.buffer.getD ((q.outIdx + i) % q.size) default)

/-- States of `struct gfifo` reachable under the mask convention:
`size` is a representable power of two, `mask = size - 1` as `gfifo_init`
sets it, both cursors in range, and the bound storage holds `size`
slots. -/
def gfifo_wf (f : gfifo α) (k : Nat) : Prop :=
  f.size = 2 ^ k ∧ k ≤ 31 ∧ f.mask = f.size - 1 ∧
    f.inIdx < f.size ∧ f.outIdx < f.size ∧ f.data.length = f.size

/-- States of `struct generic_fifo` reachable from `generic_fifo_init`
with a nonzero capacity (a zero capacity divides by zero in the C); the
bound `2 * size ≤ 2^32` keeps the `uint32_t` intermediate sums of the
source exact. -/
def generic_fifo_wf (f : generic_fifo α) : Prop :=
  0 < f.size ∧ 2 * f.size ≤ U32 ∧ f.in_idx < f.size ∧
    f.out_idx < f.size ∧ f.buffer.length = f.size

/-- States of `CircularFifo<T>` reachable from its constructor. -/
def CircularFifo_wf (q : CircularFifo α) : Prop :=
  q.size = q.capacity + 1 ∧ 2 * q.size ≤ U32 ∧ q.inIdx < q.size ∧
    q.outIdx < q.size ∧ q.buffer.length = q.size

/-- A single-element operation of the testable-properties sequence:
one `insert` of a value, or one `remove`. -/
inductive FOp (α : Type) where
  | ins : α → FOp α
  | rem : FOp α
deriving DecidableEq

/-- Run a sequence of single-element inserts/removes on a `gfifo`,
returning the final state together with the number of successful
inserts and of successful removes. -/
def gfifo_run [Inhabited α] : gfifo α → List (FOp α) → gfifo α × Nat × Nat
  | f, [] => (f, 0, 0)
  | f, FOp.ins v :: ops =>
      ((gfifo_run (gfifo_insert f v).2 ops).1,
       (if (gfifo_insert f v).1 then 1 else 0) +
         (gfifo_run (gfifo_insert f v).2 ops).2.1,
       (gfifo_run (gfifo_insert f v).2 ops).2.2)
  | f, FOp.rem :: ops =>
      ((gfifo_run (gfifo_remove f).2 ops).1,
       (gfifo_run (gfifo_remove f).2 ops).2.1,
       (if (gfifo_remove f).1.isSome then 1 else 0) +
         (gfifo_run (gfifo_remove f).2 ops).2.2)

/-- Run a sequence of single-element inserts/removes on a
`generic_fifo`, with the same success counting. -/
def generic_fifo_run [Inhabited α] :
    generic_fifo α → List (FOp α) → generic_fifo α × Nat × Nat
  | f, [] => (f, 0, 0)
  | f, FOp.ins v :: ops =>
      ((generic_fifo_run (generic_fifo_insert f v).2 ops).1,
       (if (generic_fifo_insert f v).1 then 1 else 0) +
         (generic_fifo_run (generic_fifo_insert f v).2 ops).2.1,
       (generic_fifo_run (generic_fifo_insert f v).2 ops).2.2)
  | f, FOp.rem :: ops =>
      ((generic_fifo_run (generic_fifo_remove f).2 ops).1,
       (generic_fifo_run (generic_fifo_remove f).2 ops).2.1,
       (if (generic_fifo_remove f).1.isSome then 1 else 0) +
         (generic_fifo_run (generic_fifo_remove f).2 ops).2.2)

/-- An operation of the cross-variant equivalence sequences: insert,
remove, emptiness test, fullness test, or count query. -/
inductive QOp (α : Type) where
  | ins : α → QOp α
  | rem : QOp α
  | empt : QOp α
  | full : QOp α
  | cnt : QOp α
deriving DecidableEq

/-- The caller-observable outcome of one `QOp`: a success/boolean flag,
a count, or a removed value. -/
inductive Obs (α : Type) where
  | flag : Bool → Obs α
  | num : Nat → Obs α
  | val : Option α → Obs α
deriving DecidableEq

/-- One `QOp` on a `gfifo`: observable outcome and next state. -/
def gfifo_step [Inhabited α] (f : gfifo α) : QOp α → Obs α × gfifo α
  | QOp.ins v => (Obs.flag (gfifo_insert f v).1, (gfifo_insert f v).2)
  | QOp.rem => (Obs.val (gfifo_remove f).1, (gfifo_remove f).2)
  | QOp.empt => (Obs.flag (gfifo_empty f), f)
  | QOp.full => (Obs.flag (gfifo_full f), f)
  | QOp.cnt => (Obs.num (gfifo_vaild_count f), f)

/-- One `QOp` on a `generic_fifo`. -/
def generic_fifo_step [Inhabited α] (g : generic_fifo α) :
    QOp α → Obs α × generic_fifo α
  | QOp.ins v =>
      (Obs.flag (generic_fifo_insert g v).1, (generic_fifo_insert g v).2)
  | QOp.rem => (Obs.val (generic_fifo_remove g).1, (generic_fifo_remove g).2)
  | QOp.empt => (Obs.flag (generic_fifo_empty g), g)
  | QOp.full => (Obs.flag (generic_fifo_full g), g)
  | QOp.cnt => (Obs.num (generic_fifo_valid_count g), g)

/-- Observation trace of a `QOp` sequence on a `gfifo`. -/
def gfifo_obsRun [Inhabited α] :
    gfifo α → List (QOp α) → List (Obs α) × gfifo α
  | f, [] => ([], f)
  | f, op :: ops =>
      ((gfifo_step f op).1 :: (gfifo_obsRun (gfifo_step f op).2 ops).1,
       (gfifo_obsRun (gfifo_step f op).2 ops).2)

/-- Observation trace of a `QOp` sequence on a `generic_fifo`. -/
def generic_fifo_obsRun [Inhabited α] :
    generic_fifo α → List (QOp α) → List (Obs α) × generic_fifo α
  | g, [] => ([], g)
  | g, op :: ops =>
      ((generic_fifo_step g op).1 ::
         (generic_fifo_obsRun (generic_fifo_step g op).2 ops).1,
       (generic_fifo_obsRun (generic_fifo_step g op).2 ops).2)

/-- Simulation relation between the mask-based and the modulo-based
variant: same cursors, same slot count, same storage contents. -/
def gfifo_rel (f : gfifo α) (g : generic_fifo α) : Prop :=
  f.inIdx = g.in_idx ∧ f.outIdx = g.out_idx ∧ f.size = g.size ∧
    f.data = g.buffer

/-- Run a sequence of single-element inserts/removes on a
`CircularFifo`, with the same success counting as `gfifo_run`. -/
def CircularFifo_run [Inhabited α] :
    CircularFifo α → List (FOp α) → CircularFifo α × Nat × Nat
  | q, [] => (q, 0, 0)
  | q, FOp.ins v :: ops =>
      ((CircularFifo_run (q.Insert v).2 ops).1,
       (if (q.Insert v).1 then 1 else 0) +
         (CircularFifo_run (q.Insert v).2 ops).2.1,
       (CircularFifo_run (q.Insert v).2 ops).2.2)
  | q, FOp.rem :: ops =>
      ((CircularFifo_run q.Remove.2 ops).1,
       (CircularFifo_run q.Remove.2 ops).2.1,
       (if q.Remove.1.isSome then 1 else 0) +
         (CircularFifo_run q.Remove.2 ops).2.2)

theorem U32_eq_pow : U32 = 2 ^ 32 := by norm_num [U32]

theorem U32_pos : 0 < U32 := by norm_num [U32]

/-- Case analysis for a remainder whose argument is below twice the
modulus. -/
theorem umod_cases {s a : Nat} (_hs : 0 < s) (h : a < 2 * s) :
    (a < s ∧ a % s = a) ∨ (s ≤ a ∧ a % s = a - s) := by
  rcases Nat.lt_or_ge a s with h1 | h1
  · exact Or.inl ⟨h1, Nat.mod_eq_of_lt h1⟩
  · refine Or.inr ⟨h1, ?_⟩
    rw [Nat.mod_eq_sub_mod h1]
    exact Nat.mod_eq_of_lt (by omega)

/-- The `uint32_t` computation `((i - o) + s) % s` of the sources
equals the mathematical count `(i + s - o) % s` whenever both cursors
are below `s` and `2 * s ≤ 2^32`. -/
theorem uadd_sub_mod {s i o : Nat} (hs : 0 < s) (h2 : 2 * s ≤ U32)
    (hi : i < s) (ho : o < s) :
    ((i + U32 - o) % U32 + s) % U32 % s = (i + s - o) % s := by
  rcases Nat.lt_or_ge i o with hio | hio
  · have e1 : (i + U32 - o) % U32 = i + U32 - o :=
      Nat.mod_eq_of_lt (by omega)
    have e2 : i + U32 - o + s = U32 + (i + s - o) := by omega
    rw [e1, e2, Nat.add_mod_left, Nat.mod_eq_of_lt (show i + s - o < U32 by omega)]
  · have e1 : i + U32 - o = U32 + (i - o) := by omega
    rw [e1, Nat.add_mod_left, Nat.mod_eq_of_lt (show i - o < U32 by omega),
      Nat.mod_eq_of_lt (show i - o + s < U32 by omega)]
    have e3 : i - o + s = i + s - o := by omega
    rw [e3]

/-- Counting up: advancing the write cursor of a non-full buffer
increments the count. -/
theorem cnt_succ_in {s i o : Nat} (hs : 0 < s) (hi : i < s) (ho : o < s)
    (h : (i + 1) % s ≠ o) :
    ((i + 1) % s + s - o) % s = (i + s - o) % s + 1 := by
  have hm1 : (i + 1) % s < s := Nat.mod_lt _ hs
  rcases umod_cases hs (show i + 1 < 2 * s by omega) with ⟨h1, e1⟩ | ⟨h1, e1⟩ <;>
    rcases umod_cases hs (show (i + 1) % s + s - o < 2 * s by omega) with
      ⟨h2, e2⟩ | ⟨h2, e2⟩ <;>
    rcases umod_cases hs (show i + s - o < 2 * s by omega) with
      ⟨h3, e3⟩ | ⟨h3, e3⟩ <;> omega

/-- Counting down: advancing the read cursor of a non-empty buffer
decrements the (positive) count. -/
theorem cnt_succ_out {s i o : Nat} (hs : 0 < s) (hi : i < s) (ho : o < s)
    (h : i ≠ o) :
    (i + s - (o + 1) % s) % s = (i + s - o) % s - 1 ∧
      0 < (i + s - o) % s := by
  have hm1 : (o + 1) % s < s := Nat.mod_lt _ hs
  rcases umod_cases hs (show o + 1 < 2 * s by omega) with ⟨h1, e1⟩ | ⟨h1, e1⟩ <;>
    rcases umod_cases hs (show i + s - (o + 1) % s < 2 * s by omega) with
      ⟨h2, e2⟩ | ⟨h2, e2⟩ <;>
    rcases umod_cases hs (show i + s - o < 2 * s by omega) with
      ⟨h3, e3⟩ | ⟨h3, e3⟩ <;> omega

/-- The sentinel-slot full test: the count equals `s - 1` exactly when
advancing the write cursor would meet the read cursor. -/
theorem cnt_full_iff {s i o : Nat} (hs : 0 < s) (hi : i < s) (ho : o < s) :
    (i + s - o) % s = s - 1 ↔ (i + 1) % s = o := by
  rcases umod_cases hs (show i + 1 < 2 * s by omega) with ⟨h1, e1⟩ | ⟨h1, e1⟩ <;>
    rcases umod_cases hs (show i + s - o < 2 * s by omega) with
      ⟨h3, e3⟩ | ⟨h3, e3⟩ <;> omega

/-- The count is zero exactly when the cursors coincide. -/
theorem cnt_zero_iff {s i o : Nat} (hs : 0 < s) (hi : i < s) (ho : o < s) :
    (i + s - o) % s = 0 ↔ i = o := by
  rcases umod_cases hs (show i + s - o < 2 * s by omega) with
    ⟨h3, e3⟩ | ⟨h3, e3⟩ <;> omega

/-- Under the mask convention, `x & mask` after a 32-bit wrap is plain
`x % size`. -/
theorem gfifo_mask_mod {f : gfifo α} {k : Nat} (hw : gfifo_wf f k)
    (x : Nat) : x % U32 &&& f.mask = x % f.size := by
  obtain ⟨hs, hk, hm, _, _, _⟩ := hw
  rw [hm, hs, Nat.and_pow_two_sub_one_eq_mod]
  rw [U32_eq_pow]
  exact Nat.mod_mod_of_dvd x (pow_dvd_pow 2 (by omega))

theorem gfifo_size_pos {f : gfifo α} {k : Nat} (hw : gfifo_wf f k) :
    0 < f.size := by
  obtain ⟨hs, _, _, _, _, _⟩ := hw
  rw [hs]
  exact Nat.pos_pow_of_pos k (by omega)

theorem gfifo_two_size_le {f : gfifo α} {k : Nat} (hw : gfifo_wf f k) :
    2 * f.size ≤ U32 := by
  obtain ⟨hs, hk, _, _, _, _⟩ := hw
  rw [hs, U32_eq_pow]
  calc 2 * 2 ^ k = 2 ^ (k + 1) := by ring
  _ ≤ 2 ^ 32 := Nat.pow_le_pow_right (by omega) (by omega)

/-- `gfifo_vaild_count` reduced to the mathematical count. -/
theorem gfifo_count_eq {f : gfifo α} {k : Nat} (hw : gfifo_wf f k) :
    gfifo_vaild_count f = (f.inIdx + f.size - f.outIdx) % f.size := by
  have hs := gfifo_size_pos hw
  obtain ⟨hsz, hk, _, hi, ho, _⟩ := hw
  rw [gfifo_vaild_count, gfifo_mask_mod ⟨hsz, hk, ‹_›, hi, ho, ‹_›⟩]
  have hdvd : f.size ∣ U32 := by
    rw [hsz, U32_eq_pow]
    exact pow_dvd_pow 2 (by omega)
  obtain ⟨t, ht⟩ := hdvd
  rcases t with _ | t'
  · rw [Nat.mul_zero] at ht
    exact absurd ht (by norm_num [U32])
  · have ht2 : U32 = f.size * t' + f.size := by rw [ht]; ring
    have e : f.inIdx + U32 - f.outIdx =
        (f.inIdx + f.size - f.outIdx) + f.size * t' := by omega
    rw [e, Nat.add_mul_mod_self_left]

/-- `gfifo_full` reduced to the modulo form. -/
theorem gfifo_full_eq {f : gfifo α} {k : Nat} (hw : gfifo_wf f k) :
    gfifo_full f = ((f.inIdx + 1) % f.size == f.outIdx) := by
  rw [gfifo_full, gfifo_mask_mod hw]

/-- `gfifo_insert` reduced to the modulo form. -/
theorem gfifo_insert_eq {f : gfifo α} {k : Nat} (hw : gfifo_wf f k)
    (v : α) :
    gfifo_insert f v =
      if (f.inIdx + 1) % f.size = f.outIdx then (false, f)
      else (true, { f with data := f.data.set f.inIdx v,
                           inIdx := (f.inIdx + 1) % f.size }) := by
  rw [gfifo_insert, gfifo_mask_mod hw]
  simp [beq_iff_eq]

/-- `gfifo_remove` reduced to the modulo form. -/
theorem gfifo_remove_eq [Inhabited α] {f : gfifo α} {k : Nat}
    (hw : gfifo_wf f k) :
    gfifo_remove f =
      if f.inIdx = f.outIdx then (none, f)
      else (some (f.data.getD f.outIdx default),
            { f with outIdx := (f.outIdx + 1) % f.size }) := by
  rw [gfifo_remove, gfifo_mask_mod hw]
  simp [beq_iff_eq]

/-- Inserting into a non-full well-formed `gfifo` succeeds, increments
the count and preserves well-formedness. -/
theorem gfifo_insert_succ [Inhabited α] {f : gfifo α} {k : Nat}
    (hw : gfifo_wf f k) (v : α) (h : gfifo_full f = false) :
    (gfifo_insert f v).1 = true ∧
      gfifo_wf (gfifo_insert f v).2 k ∧
      gfifo_vaild_count (gfifo_insert f v).2 = gfifo_vaild_count f + 1 := by
  have hs := gfifo_size_pos hw
  have hne : (f.inIdx + 1) % f.size ≠ f.outIdx := by
    rw [gfifo_full_eq hw] at h
    simpa using h
  rw [gfifo_insert_eq hw, if_neg hne]
  obtain ⟨hsz, hk, hm, hi, ho, hl⟩ := hw
  have hw2 : gfifo_wf ({ f with data := f.data.set f.inIdx v, inIdx := (f.inIdx + 1) % f.size }) k :=
    ⟨hsz, hk, hm, Nat.mod_lt _ hs, ho, by simpa using hl⟩
  refine ⟨rfl, hw2, ?_⟩
  rw [gfifo_count_eq hw2, gfifo_count_eq ⟨hsz, hk, hm, hi, ho, hl⟩]
  exact cnt_succ_in hs hi ho hne

/-- Removing from a non-empty well-formed `gfifo` succeeds, decrements
the (positive) count and preserves well-formedness. -/
theorem gfifo_remove_succ [Inhabited α] {f : gfifo α} {k : Nat}
    (hw : gfifo_wf f k) (h : gfifo_empty f = false) :
    (gfifo_remove f).1 = some (f.data.getD f.outIdx default) ∧
      gfifo_wf (gfifo_remove f).2 k ∧
      gfifo_vaild_count (gfifo_remove f).2 = gfifo_vaild_count f - 1 ∧
      0 < gfifo_vaild_count f := by
  have hs := gfifo_size_pos hw
  have hne : f.inIdx ≠ f.outIdx := by
    rw [gfifo_empty] at h
    simpa using h
  rw [gfifo_remove_eq hw, if_neg hne]
  obtain ⟨hsz, hk, hm, hi, ho, hl⟩ := hw
  have hw2 : gfifo_wf { f with outIdx := (f.outIdx + 1) % f.size } k :=
    ⟨hsz, hk, hm, hi, Nat.mod_lt _ hs, hl⟩
  refine ⟨rfl, hw2, ?_, ?_⟩
  · rw [gfifo_count_eq hw2, gfifo_count_eq ⟨hsz, hk, hm, hi, ho, hl⟩]
    exact (cnt_succ_out hs hi ho hne).1
  · rw [gfifo_count_eq ⟨hsz, hk, hm, hi, ho, hl⟩]
    exact (cnt_succ_out hs hi ho hne).2

/-- A failed insert (full test true) leaves the `gfifo` untouched. -/
theorem gfifo_insert_fail {f : gfifo α} (v : α)
    (h : gfifo_full f = true) : gfifo_insert f v = (false, f) := by
  rw [gfifo_full] at h
  rw [gfifo_insert, if_pos h]

/-- A failed remove (empty test true) leaves the `gfifo` untouched. -/
theorem gfifo_remove_fail [Inhabited α] {f : gfifo α}
    (h : gfifo_empty f = true) : gfifo_remove f = (none, f) := by
  rw [gfifo_empty] at h
  rw [gfifo_remove, if_pos h]

/-- `generic_fifo_full` reduced: the `uint32_t` wrap in `(in + 1)` is
inert for in-range cursors. -/
theorem generic_full_eq {g : generic_fifo α} (hw : generic_fifo_wf g) :
    generic_fifo_full g = ((g.in_idx + 1) % g.size == g.out_idx) := by
  obtain ⟨hs, h2, hi, ho, _⟩ := hw
  rw [generic_fifo_full, Nat.mod_eq_of_lt (show g.in_idx + 1 < U32 by omega)]

/-- `generic_fifo_valid_count` reduced to the mathematical count. -/
theorem generic_count_eq {g : generic_fifo α} (hw : generic_fifo_wf g) :
    generic_fifo_valid_count g =
      (g.in_idx + g.size - g.out_idx) % g.size := by
  obtain ⟨hs, h2, hi, ho, _⟩ := hw
  exact uadd_sub_mod hs h2 hi ho

/-- `generic_fifo_insert` reduced to the modulo form. -/
theorem generic_insert_eq {g : generic_fifo α} (hw : generic_fifo_wf g)
    (v : α) :
    generic_fifo_insert g v =
      if (g.in_idx + 1) % g.size = g.out_idx then (false, g)
      else (true, { g with buffer := g.buffer.set g.in_idx v, in_idx := (g.in_idx + 1) % g.size }) := by
  obtain ⟨hs, h2, hi, ho, hl⟩ := hw
  rw [generic_fifo_insert, generic_full_eq ⟨hs, h2, hi, ho, hl⟩,
    Nat.mod_eq_of_lt (show g.in_idx + 1 < U32 by omega)]
  simp [beq_iff_eq]

/-- `generic_fifo_remove` reduced to the modulo form. -/
theorem generic_remove_eq [Inhabited α] {g : generic_fifo α}
    (hw : generic_fifo_wf g) :
    generic_fifo_remove g =
      if g.in_idx = g.out_idx then (none, g)
      else (some (g.buffer.getD g.out_idx default), { g with out_idx := (g.out_idx + 1) % g.size }) := by
  obtain ⟨hs, h2, hi, ho, hl⟩ := hw
  rw [generic_fifo_remove, generic_fifo_empty,
    Nat.mod_eq_of_lt (show g.out_idx + 1 < U32 by omega)]
  simp [beq_iff_eq]

/-- Inserting into a non-full well-formed `generic_fifo` succeeds,
increments the count and preserves well-formedness. -/
theorem generic_insert_succ [Inhabited α] {g : generic_fifo α}
    (hw : generic_fifo_wf g) (v : α) (h : generic_fifo_full g = false) :
    (generic_fifo_insert g v).1 = true ∧
      generic_fifo_wf (generic_fifo_insert g v).2 ∧
      generic_fifo_valid_count (generic_fifo_insert g v).2 =
        generic_fifo_valid_count g + 1 := by
  obtain ⟨hs, h2, hi, ho, hl⟩ := hw
  have hne : (g.in_idx + 1) % g.size ≠ g.out_idx := by
    rw [generic_full_eq ⟨hs, h2, hi, ho, hl⟩] at h
    simpa using h
  rw [generic_insert_eq ⟨hs, h2, hi, ho, hl⟩, if_neg hne]
  have hw2 : generic_fifo_wf ({ g with buffer := g.buffer.set g.in_idx v, in_idx := (g.in_idx + 1) % g.size }) :=
    ⟨hs, h2, Nat.mod_lt _ hs, ho, by simpa using hl⟩
  refine ⟨rfl, hw2, ?_⟩
  rw [generic_count_eq hw2, generic_count_eq ⟨hs, h2, hi, ho, hl⟩]
  exact cnt_succ_in hs hi ho hne

/-- Removing from a non-empty well-formed `generic_fifo` succeeds,
decrements the (positive) count and preserves well-formedness. -/
theorem generic_remove_succ [Inhabited α] {g : generic_fifo α}
    (hw : generic_fifo_wf g) (h : generic_fifo_empty g = false) :
    (generic_fifo_remove g).1 = some (g.buffer.getD g.out_idx default) ∧
      generic_fifo_wf (generic_fifo_remove g).2 ∧
      generic_fifo_valid_count (generic_fifo_remove g).2 =
        generic_fifo_valid_count g - 1 ∧
      0 < generic_fifo_valid_count g := by
  obtain ⟨hs, h2, hi, ho, hl⟩ := hw
  have hne : g.in_idx ≠ g.out_idx := by
    rw [generic_fifo_empty] at h
    simpa using h
  rw [generic_remove_eq ⟨hs, h2, hi, ho, hl⟩, if_neg hne]
  have hw2 : generic_fifo_wf ({ g with out_idx := (g.out_idx + 1) % g.size }) :=
    ⟨hs, h2, hi, Nat.mod_lt _ hs, hl⟩
  refine ⟨rfl, hw2, ?_, ?_⟩
  · rw [generic_count_eq hw2, generic_count_eq ⟨hs, h2, hi, ho, hl⟩]
    exact (cnt_succ_out hs hi ho hne).1
  · rw [generic_count_eq ⟨hs, h2, hi, ho, hl⟩]
    exact (cnt_succ_out hs hi ho hne).2

/-- A failed insert leaves the `generic_fifo` untouched. -/
theorem generic_insert_fail {g : generic_fifo α} (v : α)
    (h : generic_fifo_full g = true) :
    generic_fifo_insert g v = (false, g) := by
  rw [generic_fifo_insert, if_pos h]

/-- A failed remove leaves the `generic_fifo` untouched. -/
theorem generic_remove_fail [Inhabited α] {g : generic_fifo α}
    (h : generic_fifo_empty g = true) :
    generic_fifo_remove g = (none, g) := by
  rw [generic_fifo_remove, if_pos h]

/-- Unsigned 32-bit subtraction is exact when it cannot borrow. -/
theorem usub_small {a b : Nat} (h : b ≤ a) (ha : a < U32) :
    (a + U32 - b) % U32 = a - b := by
  have e : a + U32 - b = U32 + (a - b) := by omega
  rw [e, Nat.add_mod_left, Nat.mod_eq_of_lt (by omega)]

theorem getD_set_self (l : List α) (i : Nat) (v d : α)
    (h : i < l.length) : (l.set i v).getD i d = v := by
  rw [List.getD_eq_getElem?_getD, List.getElem?_set_self (by simpa using h)]
  rfl

/-- `CircularFifo.Count` reduced to the mathematical count. -/
theorem CircularFifo_count_eq {q : CircularFifo α}
    (hw : CircularFifo_wf q) :
    q.Count = (q.inIdx + q.size - q.outIdx) % q.size := by
  obtain ⟨hc, h2, hi, ho, hl⟩ := hw
  exact uadd_sub_mod (by omega) h2 hi ho

/-- C6: in every variant, when the full test holds the next
single-element insert returns the failure flag and the returned state
is exactly the argument state — cursors and every storage slot
unchanged. -/
theorem full_insert_fails_unchanged {α : Type} :
    (∀ (f : gfifo α) (v : α),
        gfifo_full f = true → gfifo_insert f v = (false, f)) ∧
    (∀ (g : generic_fifo α) (v : α),
        generic_fifo_full g = true → generic_fifo_insert g v = (false, g)) ∧
    (∀ (q : CircularFifo α) (x : α),
        CircularFifo.IsFull q = true → CircularFifo.Insert q x = (false, q)) := by
  refine ⟨fun f v h => gfifo_insert_fail v h,
    fun g v h => generic_insert_fail v h,
    fun q x h => ?_⟩
  rw [CircularFifo.Insert, if_pos h]

theorem full_insert_fails_unchanged_witness :
    gfifo_insert (⟨[0, 0], 1, 0, 2, 1⟩ : gfifo Nat) 7 =
        (false, ⟨[0, 0], 1, 0, 2, 1⟩) ∧
    generic_fifo_insert (⟨[0, 0], 1, 0, 2, 0⟩ : generic_fifo Nat) 7 =
        (false, ⟨[0, 0], 1, 0, 2, 0⟩) ∧
    CircularFifo.Insert (⟨[0, 0], 1, 0, 2, 1⟩ : CircularFifo Nat) 7 =
        (false, ⟨[0, 0], 1, 0, 2, 1⟩) :=
  ⟨full_insert_fails_unchanged.1 _ 7 (by decide),
   full_insert_fails_unchanged.2.1 _ 7 (by decide),
   full_insert_fails_unchanged.2.2 _ 7 (by decide)⟩

/-- C4: the corrected peek (the source's `gfifo_peek` does not compile,
see `gfifo_peek_fixed`) copies exactly the value `gfifo_remove` would
copy — the oldest element on a non-empty buffer, a failure indicator on
an empty one — and returns the state entirely unchanged in both cases. -/
theorem peek_fixed_agrees_with_remove {α : Type} [Inhabited α]
    (f : gfifo α) :
    (gfifo_peek_fixed f).1 = (gfifo_remove f).1 ∧
      (gfifo_peek_fixed f).2 = f := by
  by_cases h : f.inIdx = f.outIdx <;>
    simp [gfifo_peek_fixed, gfifo_remove, h]

/-- C8: capacity-3 C# buffer (4 slots); insert 1,2,3, remove twice,
insert 4 and 5 — the second-to-last insert wraps the write cursor to
slot 0 — and `GetAll` returns the three held elements in insertion
order. -/
theorem wraparound_getall_order :
    (let s3 := ((((CircularFifo.ofCapacity Nat 3).Insert 1).2.Insert
      2).2.Insert 3).2
     let s6 := ((s3.Remove.2.Remove.2).Insert 4).2
     s6.inIdx = 0 ∧ ((s6.Insert 5).2).GetAll = [3, 4, 5]) := by
  decide

/-- C1: the indexed peek is broken in both source variants.  On the
`generic_fifo` state with `out_idx = 2`, `in_idx = 1`, `size = 4`
(count 3, storage `[30, 99, 10, 20]`, logical order 10,20,30), the
valid index 2 is accepted but the copy reads physical slot
`out_idx + 2 = 4`, past the end of storage (modelled by the default 0),
instead of the wrapped slot `(out_idx + 2) % size = 0` holding 30.  On
the same C# state, `GetValue` with the out-of-range index 3 ≥ Count = 3
returns success (its guard `index < 0 && index > Count()` is
unsatisfiable) and yields the stale slot 99 instead of failing. -/
theorem select_index_getvalue_failing_case :
    generic_fifo_select_index
        (⟨[30, 99, 10, 20], 1, 2, 4, 0⟩ : generic_fifo Nat) 2 = some 0 ∧
    (⟨[30, 99, 10, 20], 1, 2, 4, 0⟩ : generic_fifo Nat).buffer.getD
        ((2 + 2) % 4) 0 = 30 ∧
    (0 : Nat) ≠ 30 ∧
    CircularFifo.Count (⟨[30, 99, 10, 20], 1, 2, 4, 3⟩ : CircularFifo Nat)
        = 3 ∧
    CircularFifo.GetValue
        (⟨[30, 99, 10, 20], 1, 2, 4, 3⟩ : CircularFifo Nat) 3 = some 99 := by
  decide

/-- C5: `gfifo_insert_array` corrupts the queue when the copy wraps.
On the empty 4-slot gfifo with both cursors at 2, inserting the 3-run
`[10, 20, 30]` succeeds and advances the write cursor correctly, but
the wrapped tail is copied from offset `len - (size - in) = 1` of the
input instead of offset `size - in = 2`: slot 0 receives 20 (a
duplicate) instead of 30, so draining yields 10, 20, 20. -/
theorem insert_array_wrap_failing_case :
    (gfifo_insert_array (⟨[0, 0, 0, 0], 2, 2, 4, 3⟩ : gfifo Nat)
        [10, 20, 30] 3 =
      (true, ⟨[20, 0, 10, 20], 1, 2, 4, 3⟩)) ∧
    (gfifo_remove (gfifo_insert_array
        (⟨[0, 0, 0, 0], 2, 2, 4, 3⟩ : gfifo Nat) [10, 20, 30] 3).2).1 =
      some 10 ∧
    (gfifo_remove (gfifo_remove (gfifo_insert_array
        (⟨[0, 0, 0, 0], 2, 2, 4, 3⟩ : gfifo Nat) [10, 20, 30] 3).2).2).1 =
      some 20 ∧
    (gfifo_remove (gfifo_remove (gfifo_remove (gfifo_insert_array
        (⟨[0, 0, 0, 0], 2, 2, 4, 3⟩ : gfifo Nat)
        [10, 20, 30] 3).2).2).2).1 = some 20 ∧
    (20 : Nat) ≠ 30 := by
  decide

/-- C2 counterexample: `gfifo_init` with capacity 0 and with the
non-power-of-two capacity 3, and `generic_fifo_init` with capacity 0,
all yield fully initialized buffers (cursors zeroed, fields recorded,
for capacity 0 a wrapped mask `2^32 - 1`); no configuration failure
exists anywhere in the construction paths. -/
theorem init_invalid_capacity_yields_buffer :
    gfifo_init ([] : List Nat) 0 = ⟨[], 0, 0, 0, 4294967295⟩ ∧
    gfifo_init ([0, 0, 0] : List Nat) 3 = ⟨[0, 0, 0], 0, 0, 3, 2⟩ ∧
    gfifo_empty (gfifo_init ([0, 0, 0] : List Nat) 3) = true ∧
    generic_fifo_init ([] : List Nat) 7 0 = ⟨[], 0, 0, 0, 7⟩ := by
  decide

/-- C2 (amended): neither C init macro validates its capacity: for
every capacity — zero and non-powers-of-two included — `gfifo_init`
and `generic_fifo_init` unconditionally produce an initialized buffer
(both cursors zero, hence empty with count 0, size recorded, gfifo
mask = capacity - 1 in wrapping `unsigned int`). -/
theorem init_performs_no_validation {α : Type} (buf : List α)
    (size flag : Nat) (h : size < U32) :
    (gfifo_init buf size).size = size ∧
    (gfifo_init buf size).mask = (size + U32 - 1) % U32 ∧
    gfifo_empty (gfifo_init buf size) = true ∧
    gfifo_vaild_count (gfifo_init buf size) = 0 ∧
    (generic_fifo_init buf flag size).size = size ∧
    (generic_fifo_init buf flag size).user_buffer_flag = flag ∧
    generic_fifo_empty (generic_fifo_init buf flag size) = true ∧
    generic_fifo_valid_count (generic_fifo_init buf flag size) = 0 := by
  refine ⟨rfl, rfl, rfl, ?_, rfl, rfl, rfl, ?_⟩
  · simp [gfifo_vaild_count, gfifo_init]
  · simp [generic_fifo_valid_count, generic_fifo_init,
      Nat.mod_eq_of_lt h, Nat.mod_self]

theorem init_performs_no_validation_witness :
    (gfifo_init [0, 0, 0] 3).size = 3 ∧
    (gfifo_init [0, 0, 0] 3).mask = (3 + U32 - 1) % U32 ∧
    gfifo_empty (gfifo_init [0, 0, 0] 3) = true ∧
    gfifo_vaild_count (gfifo_init [0, 0, 0] 3) = 0 ∧
    (generic_fifo_init [0, 0, 0] 0 3).size = 3 ∧
    (generic_fifo_init [0, 0, 0] 0 3).user_buffer_flag = 0 ∧
    generic_fifo_empty (generic_fifo_init [0, 0, 0] 0 3) = true ∧
    generic_fifo_valid_count (generic_fifo_init [0, 0, 0] 0 3) = 0 :=
  init_performs_no_validation [0, 0, 0] 3 0 (by decide)

/-- C3 counterexample: on a freshly initialized `generic_fifo` of 4
slots (count 0, usable capacity 3), `generic_fifo_unused_count`
returns 4 — `capacity_slots - count`, not the claimed
`capacity_slots - 1 - count = 3`. -/
theorem generic_unused_count_cex :
    generic_fifo_unused_count
        (generic_fifo_init ([0, 0, 0, 0] : List Nat) 0 4) = 4 ∧
    (generic_fifo_init ([0, 0, 0, 0] : List Nat) 0 4).size - 1 -
        generic_fifo_valid_count
          (generic_fifo_init ([0, 0, 0, 0] : List Nat) 0 4) = 3 ∧
    (4 : Nat) ≠ 3 := by
  decide

/-- C3 (amended): the spec's formula holds only for the C# variant:
`UnusedCount() + Count() = capacity_slots - 1` there (`Capacity` is the
usable capacity), while `generic_fifo_unused_count` satisfies
`unused_count() + count() = capacity_slots` — one more than the usable
capacity, since it does not discount the sentinel slot. -/
theorem unused_count_formulas {α : Type} :
    (∀ g : generic_fifo α, generic_fifo_wf g →
        generic_fifo_unused_count g + generic_fifo_valid_count g =
          g.size) ∧
    (∀ q : CircularFifo α, CircularFifo_wf q →
        q.UnusedCount + q.Count = q.size - 1 ∧ q.capacity = q.size - 1) := by
  constructor
  · intro g hw
    have hc : generic_fifo_valid_count g < g.size := by
      rw [generic_count_eq hw]
      exact Nat.mod_lt _ hw.1
    obtain ⟨hs, h2, hi, ho, hl⟩ := hw
    rw [generic_fifo_unused_count, usub_small (by omega) (by omega)]
    omega
  · intro q hw
    obtain ⟨hcap, h2, hi, ho, hl⟩ := hw
    have hc : q.Count < q.size := by
      rw [CircularFifo_count_eq ⟨hcap, h2, hi, ho, hl⟩]
      exact Nat.mod_lt _ (by omega)
    rw [CircularFifo.UnusedCount, usub_small (by omega) (by omega)]
    omega

theorem unused_count_formulas_witness :
    generic_fifo_unused_count
        (⟨[30, 99, 10, 20], 1, 2, 4, 0⟩ : generic_fifo Nat) +
      generic_fifo_valid_count
        (⟨[30, 99, 10, 20], 1, 2, 4, 0⟩ : generic_fifo Nat) =
      (⟨[30, 99, 10, 20], 1, 2, 4, 0⟩ : generic_fifo Nat).size ∧
    (CircularFifo.UnusedCount
          (⟨[30, 99, 10, 20], 1, 2, 4, 3⟩ : CircularFifo Nat) +
        CircularFifo.Count
          (⟨[30, 99, 10, 20], 1, 2, 4, 3⟩ : CircularFifo Nat) =
        (⟨[30, 99, 10, 20], 1, 2, 4, 3⟩ : CircularFifo Nat).size - 1 ∧
      (⟨[30, 99, 10, 20], 1, 2, 4, 3⟩ : CircularFifo Nat).capacity =
        (⟨[30, 99, 10, 20], 1, 2, 4, 3⟩ : CircularFifo Nat).size - 1) :=
  ⟨unused_count_formulas.1 _ (by exact ⟨by decide, by decide, by decide,
      by decide, by decide⟩),
   unused_count_formulas.2 _ (by exact ⟨by decide, by decide, by decide,
      by decide, by decide⟩)⟩

/-- C9 counterexample: on a non-full but non-empty gfifo (4 slots,
holding the single element 5), inserting 7 succeeds but the immediately
following remove yields the oldest element 5, not the value 7 just
inserted. -/
theorem roundtrip_nonfull_cex :
    gfifo_full (⟨[5, 0, 0, 0], 1, 0, 4, 3⟩ : gfifo Nat) = false ∧
    (gfifo_insert (⟨[5, 0, 0, 0], 1, 0, 4, 3⟩ : gfifo Nat) 7).1 = true ∧
    (gfifo_remove
        (gfifo_insert (⟨[5, 0, 0, 0], 1, 0, 4, 3⟩ : gfifo Nat) 7).2).1 =
      some 5 ∧
    (5 : Nat) ≠ 7 := by
  decide

/-- C9 (amended): the insert/remove round trip returns the inserted
value only from an EMPTY buffer: for every well-formed empty non-full
`gfifo` and every value `v`, `gfifo_insert v` succeeds and the
immediately following `gfifo_remove` succeeds and yields exactly `v`. -/
theorem roundtrip_empty {α : Type} [Inhabited α] (f : gfifo α) (k : Nat)
    (v : α) (hw : gfifo_wf f k) (he : gfifo_empty f = true)
    (hf : gfifo_full f = false) :
    (gfifo_insert f v).1 = true ∧
      (gfifo_remove (gfifo_insert f v).2).1 = some v := by
  have hne : (f.inIdx + 1) % f.size ≠ f.outIdx := by
    rw [gfifo_full_eq hw] at hf
    simpa using hf
  have heq : f.inIdx = f.outIdx := by
    rw [gfifo_empty] at he
    simpa using he
  obtain ⟨hsz, hk, hm, hi, ho, hl⟩ := hw
  rw [gfifo_insert_eq ⟨hsz, hk, hm, hi, ho, hl⟩, if_neg hne]
  have hs : 0 < f.size := gfifo_size_pos ⟨hsz, hk, hm, hi, ho, hl⟩
  have hw2 : gfifo_wf ({ f with data := f.data.set f.inIdx v, inIdx := (f.inIdx + 1) % f.size }) k :=
    ⟨hsz, hk, hm, Nat.mod_lt _ hs, ho, by simpa using hl⟩
  rw [gfifo_remove_eq hw2]
  rw [if_neg hne]
  refine ⟨rfl, ?_⟩
  show some ((f.data.set f.inIdx v).getD f.outIdx default) = some v
  rw [← heq, getD_set_self _ _ _ _ (by omega)]

theorem roundtrip_empty_witness :
    (gfifo_insert (⟨[0, 0, 0, 0], 2, 2, 4, 3⟩ : gfifo Nat) 7).1 = true ∧
    (gfifo_remove
        (gfifo_insert (⟨[0, 0, 0, 0], 2, 2, 4, 3⟩ : gfifo Nat) 7).2).1 =
      some 7 :=
  roundtrip_empty _ 2 7
    (by exact ⟨by decide, by decide, by decide, by decide, by decide,
      by decide⟩)
    (by decide) (by decide)

/-- A gfifo freshly bound to `2^k` slots (k ≤ 31) is well-formed. -/
theorem gfifo_init_wf {α : Type} (buf : List α) (k : Nat) (hk : k ≤ 31)
    (hl : buf.length = 2 ^ k) : gfifo_wf (gfifo_init buf (2 ^ k)) k := by
  have h1 : 0 < 2 ^ k := Nat.pos_pow_of_pos k (by omega)
  have h2 : 2 ^ k < U32 := by
    rw [U32_eq_pow]
    exact Nat.pow_lt_pow_right (by omega) (by omega)
  exact ⟨rfl, hk, usub_small (by omega) h2, h1, h1, hl⟩

/-- A generic_fifo freshly bound to `s` slots is well-formed for
`0 < s`, `2 * s ≤ 2^32`. -/
theorem generic_init_wf {α : Type} (buf : List α) (flag s : Nat)
    (hs : 0 < s) (h2 : 2 * s ≤ U32) (hl : buf.length = s) :
    generic_fifo_wf (generic_fifo_init buf flag s) :=
  ⟨hs, h2, hs, hs, hl⟩

/-- Sequence invariant for the mask variant: any insert/remove sequence
preserves well-formedness and keeps the running balance
`removes + final count = initial count + inserts`. -/
theorem gfifo_run_invariant {α : Type} [Inhabited α] (ops : List (FOp α))
    (f : gfifo α) (k : Nat) (hw : gfifo_wf f k) :
    gfifo_wf (gfifo_run f ops).1 k ∧
      (gfifo_run f ops).2.2 + gfifo_vaild_count (gfifo_run f ops).1 =
        gfifo_vaild_count f + (gfifo_run f ops).2.1 := by
  induction ops generalizing f with
  | nil => exact ⟨hw, by simp [gfifo_run]⟩
  | cons op ops ih =>
    cases op with
    | ins v =>
      by_cases h : gfifo_full f
      · have he := gfifo_insert_fail v h
        obtain ⟨ih1, ih2⟩ := ih f hw
        refine ⟨by simpa [gfifo_run, he] using ih1, ?_⟩
        simp only [gfifo_run, he]
        simpa using ih2
      · have hb : gfifo_full f = false := by simpa using h
        obtain ⟨h1, h2, h3⟩ := gfifo_insert_succ hw v hb
        obtain ⟨ih1, ih2⟩ := ih (gfifo_insert f v).2 h2
        refine ⟨by simpa [gfifo_run] using ih1, ?_⟩
        simp only [gfifo_run, h1, if_true]
        omega
    | rem =>
      by_cases h : gfifo_empty f
      · have he := gfifo_remove_fail h
        obtain ⟨ih1, ih2⟩ := ih f hw
        refine ⟨by simpa [gfifo_run, he] using ih1, ?_⟩
        simp only [gfifo_run, he]
        simpa using ih2
      · have hb : gfifo_empty f = false := by simpa using h
        obtain ⟨h1, h2, h3, h4⟩ := gfifo_remove_succ hw hb
        obtain ⟨ih1, ih2⟩ := ih (gfifo_remove f).2 h2
        refine ⟨by simpa [gfifo_run] using ih1, ?_⟩
        simp only [gfifo_run, h1, Option.isSome_some, if_true]
        omega

theorem generic_insert_size (g : generic_fifo α) (v : α) :
    (generic_fifo_insert g v).2.size = g.size := by
  rw [generic_fifo_insert]
  split <;> rfl

theorem generic_remove_size [Inhabited α] (g : generic_fifo α) :
    (generic_fifo_remove g).2.size = g.size := by
  rw [generic_fifo_remove]
  split <;> rfl

theorem generic_run_size {α : Type} [Inhabited α] (ops : List (FOp α))
    (g : generic_fifo α) :
    (generic_fifo_run g ops).1.size = g.size := by
  induction ops generalizing g with
  | nil => rfl
  | cons op ops ih =>
    cases op with
    | ins v =>
      rw [show (generic_fifo_run g (FOp.ins v :: ops)).1 =
        (generic_fifo_run (generic_fifo_insert g v).2 ops).1 from rfl,
        ih, generic_insert_size]
    | rem =>
      rw [show (generic_fifo_run g (FOp.rem :: ops)).1 =
        (generic_fifo_run (generic_fifo_remove g).2 ops).1 from rfl,
        ih, generic_remove_size]

/-- Sequence invariant for the modulo variant. -/
theorem generic_run_invariant {α : Type} [Inhabited α]
    (ops : List (FOp α)) (g : generic_fifo α) (hw : generic_fifo_wf g) :
    generic_fifo_wf (generic_fifo_run g ops).1 ∧
      (generic_fifo_run g ops).2.2 +
          generic_fifo_valid_count (generic_fifo_run g ops).1 =
        generic_fifo_valid_count g + (generic_fifo_run g ops).2.1 := by
  induction ops generalizing g with
  | nil => exact ⟨hw, by simp [generic_fifo_run]⟩
  | cons op ops ih =>
    cases op with
    | ins v =>
      by_cases h : generic_fifo_full g
      · have he := generic_insert_fail v h
        obtain ⟨ih1, ih2⟩ := ih g hw
        refine ⟨by simpa [generic_fifo_run, he] using ih1, ?_⟩
        simp only [generic_fifo_run, he]
        simpa using ih2
      · have hb : generic_fifo_full g = false := by simpa using h
        obtain ⟨h1, h2, h3⟩ := generic_insert_succ hw v hb
        obtain ⟨ih1, ih2⟩ := ih (generic_fifo_insert g v).2 h2
        refine ⟨by simpa [generic_fifo_run] using ih1, ?_⟩
        simp only [generic_fifo_run, h1, if_true]
        omega
    | rem =>
      by_cases h : generic_fifo_empty g
      · have he := generic_remove_fail h
        obtain ⟨ih1, ih2⟩ := ih g hw
        refine ⟨by simpa [generic_fifo_run, he] using ih1, ?_⟩
        simp only [generic_fifo_run, he]
        simpa using ih2
      · have hb : generic_fifo_empty g = false := by simpa using h
        obtain ⟨h1, h2, h3, h4⟩ := generic_remove_succ hw hb
        obtain ⟨ih1, ih2⟩ := ih (generic_fifo_remove g).2 h2
        refine ⟨by simpa [generic_fifo_run] using ih1, ?_⟩
        simp only [generic_fifo_run, h1, Option.isSome_some, if_true]
        omega

theorem CircularFifo_size_pos {q : CircularFifo α}
    (hw : CircularFifo_wf q) : 0 < q.size := by
  obtain ⟨hc, _, _, _, _⟩ := hw
  omega

theorem CircularFifo_full_eq {q : CircularFifo α}
    (hw : CircularFifo_wf q) :
    q.IsFull = ((q.inIdx + 1) % q.size == q.outIdx) := by
  obtain ⟨hc, h2, hi, ho, hl⟩ := hw
  rw [CircularFifo.IsFull,
    Nat.mod_eq_of_lt (show q.inIdx + 1 < U32 by omega)]

theorem CircularFifo_insert_eq {q : CircularFifo α}
    (hw : CircularFifo_wf q) (x : α) :
    q.Insert x =
      if (q.inIdx + 1) % q.size = q.outIdx then (false, q)
      else (true, { q with buffer := q.buffer.set q.inIdx x, inIdx := (q.inIdx + 1) % q.size }) := by
  obtain ⟨hc, h2, hi, ho, hl⟩ := hw
  rw [CircularFifo.Insert, CircularFifo_full_eq ⟨hc, h2, hi, ho, hl⟩,
    Nat.mod_eq_of_lt (show q.inIdx + 1 < U32 by omega)]
  simp [beq_iff_eq]

theorem CircularFifo_remove_eq [Inhabited α] {q : CircularFifo α}
    (hw : CircularFifo_wf q) :
    q.Remove =
      if q.inIdx = q.outIdx then (none, q)
      else (some (q.buffer.getD q.outIdx default), { q with outIdx := (q.outIdx + 1) % q.size }) := by
  obtain ⟨hc, h2, hi, ho, hl⟩ := hw
  rw [CircularFifo.Remove, CircularFifo.IsEmpty,
    Nat.mod_eq_of_lt (show q.outIdx + 1 < U32 by omega)]
  simp [beq_iff_eq]

/-- Inserting into a non-full well-formed `CircularFifo` succeeds,
increments the count and preserves well-formedness. -/
theorem CircularFifo_insert_succ {q : CircularFifo α}
    (hw : CircularFifo_wf q) (x : α) (h : q.IsFull = false) :
    (q.Insert x).1 = true ∧ CircularFifo_wf (q.Insert x).2 ∧
      (q.Insert x).2.Count = q.Count + 1 := by
  obtain ⟨hc, h2, hi, ho, hl⟩ := hw
  have hs : 0 < q.size := by omega
  have hne : (q.inIdx + 1) % q.size ≠ q.outIdx := by
    rw [CircularFifo_full_eq ⟨hc, h2, hi, ho, hl⟩] at h
    simpa using h
  rw [CircularFifo_insert_eq ⟨hc, h2, hi, ho, hl⟩, if_neg hne]
  have hw2 : CircularFifo_wf ({ q with buffer := q.buffer.set q.inIdx x, inIdx := (q.inIdx + 1) % q.size }) :=
    ⟨hc, h2, Nat.mod_lt _ hs, ho, by simpa using hl⟩
  refine ⟨rfl, hw2, ?_⟩
  rw [CircularFifo_count_eq hw2, CircularFifo_count_eq ⟨hc, h2, hi, ho, hl⟩]
  exact cnt_succ_in hs hi ho hne

/-- Removing from a non-empty well-formed `CircularFifo` succeeds,
decrements the (positive) count and preserves well-formedness. -/
theorem CircularFifo_remove_succ [Inhabited α] {q : CircularFifo α}
    (hw : CircularFifo_wf q) (h : q.IsEmpty = false) :
    q.Remove.1 = some (q.buffer.getD q.outIdx default) ∧
      CircularFifo_wf q.Remove.2 ∧
      q.Remove.2.Count = q.Count - 1 ∧ 0 < q.Count := by
  obtain ⟨hc, h2, hi, ho, hl⟩ := hw
  have hs : 0 < q.size := by omega
  have hne : q.inIdx ≠ q.outIdx := by
    rw [CircularFifo.IsEmpty] at h
    simpa using h
  rw [CircularFifo_remove_eq ⟨hc, h2, hi, ho, hl⟩, if_neg hne]
  have hw2 : CircularFifo_wf ({ q with outIdx := (q.outIdx + 1) % q.size }) :=
    ⟨hc, h2, hi, Nat.mod_lt _ hs, hl⟩
  refine ⟨rfl, hw2, ?_, ?_⟩
  · rw [CircularFifo_count_eq hw2, CircularFifo_count_eq ⟨hc, h2, hi, ho, hl⟩]
    exact (cnt_succ_out hs hi ho hne).1
  · rw [CircularFifo_count_eq ⟨hc, h2, hi, ho, hl⟩]
    exact (cnt_succ_out hs hi ho hne).2

theorem CircularFifo_insert_fail {q : CircularFifo α} (x : α)
    (h : q.IsFull = true) : q.Insert x = (false, q) := by
  rw [CircularFifo.Insert, if_pos h]

theorem CircularFifo_remove_fail [Inhabited α] {q : CircularFifo α}
    (h : q.IsEmpty = true) : q.Remove = (none, q) := by
  rw [CircularFifo.Remove, if_pos h]

theorem CircularFifo_insert_capacity (q : CircularFifo α) (x : α) :
    (q.Insert x).2.capacity = q.capacity := by
  rw [CircularFifo.Insert]
  split <;> rfl

theorem CircularFifo_remove_capacity [Inhabited α] (q : CircularFifo α) :
    q.Remove.2.capacity = q.capacity := by
  rw [CircularFifo.Remove]
  split <;> rfl

theorem CircularFifo_run_capacity {α : Type} [Inhabited α]
    (ops : List (FOp α)) (q : CircularFifo α) :
    (CircularFifo_run q ops).1.capacity = q.capacity := by
  induction ops generalizing q with
  | nil => rfl
  | cons op ops ih =>
    cases op with
    | ins v =>
      rw [show (CircularFifo_run q (FOp.ins v :: ops)).1 =
        (CircularFifo_run (q.Insert v).2 ops).1 from rfl,
        ih, CircularFifo_insert_capacity]
    | rem =>
      rw [show (CircularFifo_run q (FOp.rem :: ops)).1 =
        (CircularFifo_run q.Remove.2 ops).1 from rfl,
        ih, CircularFifo_remove_capacity]

/-- Sequence invariant for the C# variant. -/
theorem CircularFifo_run_invariant {α : Type} [Inhabited α]
    (ops : List (FOp α)) (q : CircularFifo α) (hw : CircularFifo_wf q) :
    CircularFifo_wf (CircularFifo_run q ops).1 ∧
      (CircularFifo_run q ops).2.2 +
          (CircularFifo_run q ops).1.Count =
        q.Count + (CircularFifo_run q ops).2.1 := by
  induction ops generalizing q with
  | nil => exact ⟨hw, by simp [CircularFifo_run]⟩
  | cons op ops ih =>
    cases op with
    | ins v =>
      by_cases h : q.IsFull
      · have he := CircularFifo_insert_fail v h
        obtain ⟨ih1, ih2⟩ := ih q hw
        refine ⟨by simpa [CircularFifo_run, he] using ih1, ?_⟩
        simp only [CircularFifo_run, he]
        simpa using ih2
      · have hb : q.IsFull = false := by simpa using h
        obtain ⟨h1, h2, h3⟩ := CircularFifo_insert_succ hw v hb
        obtain ⟨ih1, ih2⟩ := ih (q.Insert v).2 h2
        refine ⟨by simpa [CircularFifo_run] using ih1, ?_⟩
        simp only [CircularFifo_run, h1, if_true]
        omega
    | rem =>
      by_cases h : q.IsEmpty
      · have he := CircularFifo_remove_fail h
        obtain ⟨ih1, ih2⟩ := ih q hw
        refine ⟨by simpa [CircularFifo_run, he] using ih1, ?_⟩
        simp only [CircularFifo_run, he]
        simpa using ih2
      · have hb : q.IsEmpty = false := by simpa using h
        obtain ⟨h1, h2, h3, h4⟩ := CircularFifo_remove_succ hw hb
        obtain ⟨ih1, ih2⟩ := ih q.Remove.2 h2
        refine ⟨by simpa [CircularFifo_run] using ih1, ?_⟩
        simp only [CircularFifo_run, h1, Option.isSome_some, if_true]
        omega

/-- A `CircularFifo` fresh from its constructor is well-formed when its
slot count keeps the `uint` sums exact. -/
theorem CircularFifo_init_wf (α : Type) [Inhabited α] (c : Nat)
    (h2 : 2 * (c + 1) ≤ U32) :
    CircularFifo_wf (CircularFifo.ofCapacity α c) :=
  ⟨rfl, h2, Nat.succ_pos c, Nat.succ_pos c, by simp [CircularFifo.ofCapacity]⟩

/-- A run of `n` straight inserts with the read cursor at 0 advances
the write cursor to `in_idx + n`, all inserts succeeding, as long as it
stays strictly below `size` (no well-formedness of the storage is
needed: cursor arithmetic never reads the buffer). -/
theorem generic_ins_run {α : Type} [Inhabited α] (n : Nat)
    (g : generic_fifo α) (v : α) (ho : g.out_idx = 0)
    (h2 : g.in_idx + n < g.size) (h3 : g.size ≤ U32) :
    (generic_fifo_run g (List.replicate n (FOp.ins v))).1.in_idx =
        g.in_idx + n ∧
      (generic_fifo_run g (List.replicate n (FOp.ins v))).1.out_idx = 0 ∧
      (generic_fifo_run g (List.replicate n (FOp.ins v))).1.size =
        g.size ∧
      (generic_fifo_run g (List.replicate n (FOp.ins v))).2.1 = n ∧
      (generic_fifo_run g (List.replicate n (FOp.ins v))).2.2 = 0 := by
  induction n generalizing g with
  | zero => simp [generic_fifo_run, ho]
  | succ n ih =>
    have e1 : (g.in_idx + 1) % U32 = g.in_idx + 1 :=
      Nat.mod_eq_of_lt (by omega)
    have e2 : (g.in_idx + 1) % g.size = g.in_idx + 1 :=
      Nat.mod_eq_of_lt (by omega)
    have hfull : generic_fifo_full g = false := by
      rw [generic_fifo_full, e1, e2, ho]
      simp
    have hstep : generic_fifo_insert g v =
        (true, { g with buffer := g.buffer.set g.in_idx v, in_idx := g.in_idx + 1 }) := by
      rw [generic_fifo_insert, hfull, e1, e2]
      rfl
    rw [List.replicate_succ]
    simp only [generic_fifo_run, hstep]
    obtain ⟨i1, i2, i3, i4, i5⟩ :=
      ih ({ g with buffer := g.buffer.set g.in_idx v, in_idx := g.in_idx + 1 })
        ho (by simpa using by omega) (by simpa using h3)
    refine ⟨?_, i2, ?_, ?_, i5⟩
    · simp only [i1]
      omega
    · simpa using i3
    · simp only [if_true, i4]
      omega

/-- C7 counterexample: the claim fails in the source for slot counts
above `2^31`.  On a fresh `generic_fifo` of `2^31 + 1` slots (usable
capacity `2^31`), the sequence of `2^31 - 1` single inserts stays
within usable capacity and every insert succeeds, yet `valid_count`
returns 0, not `inserts - removes = 2^31 - 1`: the `uint32_t` sum
`(in - out + size)` wraps to 0 exactly. -/
theorem generic_count_overflow_cex :
    (generic_fifo_run (generic_fifo_init ([] : List Nat) 0 2147483649)
        (List.replicate 2147483647 (FOp.ins 1))).2.1 = 2147483647 ∧
    (generic_fifo_run (generic_fifo_init ([] : List Nat) 0 2147483649)
        (List.replicate 2147483647 (FOp.ins 1))).2.2 = 0 ∧
    (2147483647 : Nat) ≤ 2147483649 - 1 ∧
    generic_fifo_valid_count
      (generic_fifo_run (generic_fifo_init ([] : List Nat) 0 2147483649)
        (List.replicate 2147483647 (FOp.ins 1))).1 = 0 ∧
    (0 : Nat) ≠ 2147483647 := by
  obtain ⟨i1, i2, i3, i4, i5⟩ := generic_ins_run 2147483647
    (generic_fifo_init ([] : List Nat) 0 2147483649) 1 rfl
    (by norm_num [generic_fifo_init]) (by norm_num [generic_fifo_init, U32])
  refine ⟨i4, i5, by norm_num, ?_, by norm_num⟩
  rw [generic_fifo_valid_count, i1, i2, i3]
  norm_num [generic_fifo_init, U32]

/-- C7 (amended): for every sequence of single-element inserts and
removes on a freshly initialized buffer, the resulting count equals
successful inserts minus successful removes, never negative and never
above the usable capacity — provided the slot count keeps the 32-bit
count arithmetic exact: any representable power-of-two slot count for
the mask variant, and any slot count with `2 * capacity_slots ≤ 2^32`
for the modulo and C# variants.  (Beyond that bound the claim fails in
the source: see the overflow counterexample.)  The capacity bound is
enforced by the operations themselves, so this holds for all
sequences. -/
theorem count_eq_successes_diff {α : Type} [Inhabited α] :
    (∀ (k : Nat) (buf : List α) (ops : List (FOp α)), k ≤ 31 →
        buf.length = 2 ^ k →
        (gfifo_run (gfifo_init buf (2 ^ k)) ops).2.2 ≤
            (gfifo_run (gfifo_init buf (2 ^ k)) ops).2.1 ∧
          gfifo_vaild_count (gfifo_run (gfifo_init buf (2 ^ k)) ops).1 =
            (gfifo_run (gfifo_init buf (2 ^ k)) ops).2.1 -
              (gfifo_run (gfifo_init buf (2 ^ k)) ops).2.2 ∧
          gfifo_vaild_count (gfifo_run (gfifo_init buf (2 ^ k)) ops).1 ≤
            2 ^ k - 1) ∧
    (∀ (s flag : Nat) (buf : List α) (ops : List (FOp α)), 0 < s →
        2 * s ≤ U32 → buf.length = s →
        (generic_fifo_run (generic_fifo_init buf flag s) ops).2.2 ≤
            (generic_fifo_run (generic_fifo_init buf flag s) ops).2.1 ∧
          generic_fifo_valid_count
              (generic_fifo_run (generic_fifo_init buf flag s) ops).1 =
            (generic_fifo_run (generic_fifo_init buf flag s) ops).2.1 -
              (generic_fifo_run (generic_fifo_init buf flag s) ops).2.2 ∧
          generic_fifo_valid_count
              (generic_fifo_run (generic_fifo_init buf flag s) ops).1 ≤
            s - 1) ∧
    (∀ (c : Nat) (ops : List (FOp α)), 2 * (c + 1) ≤ U32 →
        (CircularFifo_run (CircularFifo.ofCapacity α c) ops).2.2 ≤
            (CircularFifo_run (CircularFifo.ofCapacity α c) ops).2.1 ∧
          (CircularFifo_run (CircularFifo.ofCapacity α c) ops).1.Count =
            (CircularFifo_run (CircularFifo.ofCapacity α c) ops).2.1 -
              (CircularFifo_run (CircularFifo.ofCapacity α c) ops).2.2 ∧
          (CircularFifo_run (CircularFifo.ofCapacity α c) ops).1.Count ≤
            c) := by
  refine ⟨?_, ?_, ?_⟩
  · intro k buf ops hk hl
    have hw0 := gfifo_init_wf buf k hk hl
    have hc0 : gfifo_vaild_count (gfifo_init buf (2 ^ k)) = 0 := by
      rw [gfifo_count_eq hw0]
      simp [gfifo_init]
    obtain ⟨hwf, hbal⟩ := gfifo_run_invariant ops _ k hw0
    have h5 : gfifo_vaild_count (gfifo_run (gfifo_init buf (2 ^ k)) ops).1 <
        (gfifo_run (gfifo_init buf (2 ^ k)) ops).1.size := by
      rw [gfifo_count_eq hwf]
      exact Nat.mod_lt _ (gfifo_size_pos hwf)
    rw [hwf.1] at h5
    refine ⟨by omega, by omega, by omega⟩
  · intro s flag buf ops hs h2 hl
    have hw0 := generic_init_wf buf flag s hs h2 hl
    have hc0 : generic_fifo_valid_count (generic_fifo_init buf flag s) = 0 := by
      rw [generic_count_eq hw0]
      simp [generic_fifo_init]
    obtain ⟨hwf, hbal⟩ := generic_run_invariant ops _ hw0
    have h5 : generic_fifo_valid_count
        (generic_fifo_run (generic_fifo_init buf flag s) ops).1 <
        (generic_fifo_run (generic_fifo_init buf flag s) ops).1.size := by
      rw [generic_count_eq hwf]
      exact Nat.mod_lt _ hwf.1
    have h6 : (generic_fifo_run (generic_fifo_init buf flag s) ops).1.size
        = s := generic_run_size ops _
    rw [h6] at h5
    refine ⟨by omega, by omega, by omega⟩
  · intro c ops h2
    have hw0 := CircularFifo_init_wf α c h2
    have hc0 : (CircularFifo.ofCapacity α c).Count = 0 := by
      rw [CircularFifo_count_eq hw0]
      simp [CircularFifo.ofCapacity]
    obtain ⟨hwf, hbal⟩ := CircularFifo_run_invariant ops _ hw0
    have h5 : (CircularFifo_run (CircularFifo.ofCapacity α c) ops).1.Count <
        (CircularFifo_run (CircularFifo.ofCapacity α c) ops).1.size := by
      rw [CircularFifo_count_eq hwf]
      exact Nat.mod_lt _ (CircularFifo_size_pos hwf)
    have h6 : (CircularFifo_run (CircularFifo.ofCapacity α c) ops).1.capacity
        = c := CircularFifo_run_capacity ops _
    have h7 := hwf.1
    refine ⟨by omega, by omega, by omega⟩

theorem count_eq_successes_diff_witness :
    ((gfifo_run (gfifo_init [0, 0, 0, 0] (2 ^ 2))
          [FOp.ins 1, FOp.ins 2, FOp.rem]).2.2 ≤
        (gfifo_run (gfifo_init [0, 0, 0, 0] (2 ^ 2))
          [FOp.ins 1, FOp.ins 2, FOp.rem]).2.1 ∧
      gfifo_vaild_count (gfifo_run (gfifo_init [0, 0, 0, 0] (2 ^ 2))
          [FOp.ins 1, FOp.ins 2, FOp.rem]).1 =
        (gfifo_run (gfifo_init [0, 0, 0, 0] (2 ^ 2))
            [FOp.ins 1, FOp.ins 2, FOp.rem]).2.1 -
          (gfifo_run (gfifo_init [0, 0, 0, 0] (2 ^ 2))
            [FOp.ins 1, FOp.ins 2, FOp.rem]).2.2 ∧
      gfifo_vaild_count (gfifo_run (gfifo_init [0, 0, 0, 0] (2 ^ 2))
          [FOp.ins 1, FOp.ins 2, FOp.rem]).1 ≤ 2 ^ 2 - 1) ∧
    ((generic_fifo_run (generic_fifo_init [0, 0, 0, 0] 0 4)
          [FOp.ins 1, FOp.ins 2, FOp.rem]).2.2 ≤
        (generic_fifo_run (generic_fifo_init [0, 0, 0, 0] 0 4)
          [FOp.ins 1, FOp.ins 2, FOp.rem]).2.1 ∧
      generic_fifo_valid_count
          (generic_fifo_run (generic_fifo_init [0, 0, 0, 0] 0 4)
            [FOp.ins 1, FOp.ins 2, FOp.rem]).1 =
        (generic_fifo_run (generic_fifo_init [0, 0, 0, 0] 0 4)
            [FOp.ins 1, FOp.ins 2, FOp.rem]).2.1 -
          (generic_fifo_run (generic_fifo_init [0, 0, 0, 0] 0 4)
            [FOp.ins 1, FOp.ins 2, FOp.rem]).2.2 ∧
      generic_fifo_valid_count
          (generic_fifo_run (generic_fifo_init [0, 0, 0, 0] 0 4)
            [FOp.ins 1, FOp.ins 2, FOp.rem]).1 ≤ 4 - 1) ∧
    ((CircularFifo_run (CircularFifo.ofCapacity Nat 3)
          [FOp.ins 1, FOp.ins 2, FOp.rem]).2.2 ≤
        (CircularFifo_run (CircularFifo.ofCapacity Nat 3)
          [FOp.ins 1, FOp.ins 2, FOp.rem]).2.1 ∧
      (CircularFifo_run (CircularFifo.ofCapacity Nat 3)
          [FOp.ins 1, FOp.ins 2, FOp.rem]).1.Count =
        (CircularFifo_run (CircularFifo.ofCapacity Nat 3)
            [FOp.ins 1, FOp.ins 2, FOp.rem]).2.1 -
          (CircularFifo_run (CircularFifo.ofCapacity Nat 3)
            [FOp.ins 1, FOp.ins 2, FOp.rem]).2.2 ∧
      (CircularFifo_run (CircularFifo.ofCapacity Nat 3)
          [FOp.ins 1, FOp.ins 2, FOp.rem]).1.Count ≤ 3) :=
  ⟨count_eq_successes_diff.1 2 [0, 0, 0, 0]
      [FOp.ins 1, FOp.ins 2, FOp.rem] (by decide) (by decide),
   count_eq_successes_diff.2.1 4 0 [0, 0, 0, 0]
      [FOp.ins 1, FOp.ins 2, FOp.rem] (by decide) (by decide) (by decide),
   count_eq_successes_diff.2.2 3
      [FOp.ins 1, FOp.ins 2, FOp.rem] (by decide)⟩

/-- One-step simulation between the mask variant and the modulo
variant: related well-formed states produce the same observation and
stay related and well-formed. -/
theorem gfifo_generic_step_sim {α : Type} [Inhabited α] {f : gfifo α}
    {g : generic_fifo α} {k : Nat} (hw : gfifo_wf f k)
    (hg : generic_fifo_wf g) (hr : gfifo_rel f g) (op : QOp α) :
    (gfifo_step f op).1 = (generic_fifo_step g op).1 ∧
      gfifo_rel (gfifo_step f op).2 (generic_fifo_step g op).2 ∧
      gfifo_wf (gfifo_step f op).2 k ∧
      generic_fifo_wf (generic_fifo_step g op).2 := by
  obtain ⟨r1, r2, r3, r4⟩ := hr
  have hs : 0 < f.size := gfifo_size_pos hw
  cases op with
  | ins v =>
    simp only [gfifo_step, generic_fifo_step]
    rw [gfifo_insert_eq hw v, generic_insert_eq hg v]
    have hcond : ((f.inIdx + 1) % f.size = f.outIdx) ↔
        ((g.in_idx + 1) % g.size = g.out_idx) := by rw [r1, r2, r3]
    by_cases h : (g.in_idx + 1) % g.size = g.out_idx
    · rw [if_pos (hcond.mpr h), if_pos h]
      exact ⟨rfl, ⟨r1, r2, r3, r4⟩, hw, hg⟩
    · rw [if_neg (fun hh => h (hcond.mp hh)), if_neg h]
      obtain ⟨hsz, hk, hm, hi, ho, hl⟩ := hw
      obtain ⟨gs, g2, gi, go, gl⟩ := hg
      refine ⟨rfl, ⟨?_, r2, r3, ?_⟩, ?_, ?_⟩
      · show (f.inIdx + 1) % f.size = (g.in_idx + 1) % g.size
        rw [r1, r3]
      · show f.data.set f.inIdx v = g.buffer.set g.in_idx v
        rw [r4, r1]
      · exact ⟨hsz, hk, hm, Nat.mod_lt _ hs, ho, by simpa using hl⟩
      · exact ⟨gs, g2, Nat.mod_lt _ gs, go, by simpa using gl⟩
  | rem =>
    simp only [gfifo_step, generic_fifo_step]
    rw [gfifo_remove_eq hw, generic_remove_eq hg]
    have hcond : (f.inIdx = f.outIdx) ↔ (g.in_idx = g.out_idx) := by
      rw [r1, r2]
    by_cases h : g.in_idx = g.out_idx
    · rw [if_pos (hcond.mpr h), if_pos h]
      exact ⟨rfl, ⟨r1, r2, r3, r4⟩, hw, hg⟩
    · rw [if_neg (fun hh => h (hcond.mp hh)), if_neg h]
      obtain ⟨hsz, hk, hm, hi, ho, hl⟩ := hw
      obtain ⟨gs, g2, gi, go, gl⟩ := hg
      refine ⟨?_, ⟨r1, ?_, r3, r4⟩, ?_, ?_⟩
      · show Obs.val (some (f.data.getD f.outIdx default)) =
          Obs.val (some (g.buffer.getD g.out_idx default))
        rw [r4, r2]
      · show (f.outIdx + 1) % f.size = (g.out_idx + 1) % g.size
        rw [r2, r3]
      · exact ⟨hsz, hk, hm, hi, Nat.mod_lt _ hs, hl⟩
      · exact ⟨gs, g2, gi, Nat.mod_lt _ gs, gl⟩
  | empt =>
    refine ⟨?_, ⟨r1, r2, r3, r4⟩, hw, hg⟩
    simp only [gfifo_step, generic_fifo_step, gfifo_empty,
      generic_fifo_empty, r1, r2]
  | full =>
    refine ⟨?_, ⟨r1, r2, r3, r4⟩, hw, hg⟩
    simp only [gfifo_step, generic_fifo_step]
    rw [gfifo_full_eq hw, generic_full_eq hg, r1, r2, r3]
  | cnt =>
    refine ⟨?_, ⟨r1, r2, r3, r4⟩, hw, hg⟩
    simp only [gfifo_step, generic_fifo_step]
    rw [gfifo_count_eq hw, generic_count_eq hg, r1, r2, r3]

/-- Trace simulation: related well-formed states produce identical
observation traces for every operation sequence. -/
theorem gfifo_generic_obsRun_sim {α : Type} [Inhabited α]
    (ops : List (QOp α)) {f : gfifo α} {g : generic_fifo α} {k : Nat}
    (hw : gfifo_wf f k) (hg : generic_fifo_wf g) (hr : gfifo_rel f g) :
    (gfifo_obsRun f ops).1 = (generic_fifo_obsRun g ops).1 := by
  induction ops generalizing f g with
  | nil => rfl
  | cons op ops ih =>
    obtain ⟨e1, e2, e3, e4⟩ := gfifo_generic_step_sim hw hg hr op
    simp only [gfifo_obsRun, generic_fifo_obsRun, e1]
    rw [ih e3 e4 e2]

/-- C10: mask variant (`gfifo`, `& mask` arithmetic) and modulo variant
(`generic_fifo`, `% size` arithmetic) are behaviourally equivalent:
started from `init` with the same power-of-two slot count and the same
backing storage, every sequence of insert / remove / is_empty /
is_full / count operations produces identical observation traces —
identical success/failure flags, identical counts, identical removed
values. -/
theorem gfifo_generic_equiv {α : Type} [Inhabited α] (k : Nat)
    (buf : List α) (flag : Nat) (ops : List (QOp α)) (hk : k ≤ 31)
    (hl : buf.length = 2 ^ k) :
    (gfifo_obsRun (gfifo_init buf (2 ^ k)) ops).1 =
      (generic_fifo_obsRun (generic_fifo_init buf flag (2 ^ k)) ops).1 := by
  have h1 : 0 < 2 ^ k := Nat.pos_pow_of_pos k (by omega)
  have h2 : 2 * 2 ^ k ≤ U32 := by
    rw [U32_eq_pow]
    calc 2 * 2 ^ k = 2 ^ (k + 1) := by ring
    _ ≤ 2 ^ 32 := Nat.pow_le_pow_right (by omega) (by omega)
  exact gfifo_generic_obsRun_sim ops (gfifo_init_wf buf k hk hl)
    (generic_init_wf buf flag (2 ^ k) h1 h2 hl) ⟨rfl, rfl, rfl, rfl⟩

theorem gfifo_generic_equiv_witness :
    (gfifo_obsRun (gfifo_init [0, 0, 0, 0] (2 ^ 2))
        [QOp.ins 1, QOp.full, QOp.ins 2, QOp.cnt, QOp.rem,
          QOp.empt]).1 =
      (generic_fifo_obsRun (generic_fifo_init [0, 0, 0, 0] 0 (2 ^ 2))
        [QOp.ins 1, QOp.full, QOp.ins 2, QOp.cnt, QOp.rem,
          QOp.empt]).1 :=
  gfifo_generic_equiv 2 [0, 0, 0, 0] 0
    [QOp.ins 1, QOp.full, QOp.ins 2, QOp.cnt, QOp.rem, QOp.empt]
    (by decide) (by decide)
